import Mathlib

/- A shallow embedding of the plasmid-designer script Assignment_1.py.

   Modelling conventions:
   * a Python string is a `List Char`;
   * a text file is a `List (List Char)` — its lines, without the trailing
     newline characters;
   * a Python dict is an association list (insertion order, overwriting
     assignment), a Python set built by `read_design` is a `Finset`;
     where the script iterates over a set, the iteration order is taken
     as an explicit `List` argument;
   * the random source used by `generate_spacer` is a stream of coin
     flips `Nat → Bool` together with a position counter that is
     threaded through the computation;
   * a Python exception is the error branch of an `Except` (or, inside
     `find_ori`, the `none` branch of an `Option`); scores computed with
     Python floats are modelled as exact rationals. -/

/-- The whitespace characters removed by Python's `str.strip()`. -/
def isPySpace (c : Char) : Bool :=
  (c == ' ') || (c == '\t') || (c == '\n') || (c == '\r') || (c == '\x0b') || (c == '\x0c')

/-- Python `str.strip()`: remove leading and trailing whitespace. -/
def strip (l : List Char) : List Char :=
  ((l.dropWhile isPySpace).reverse.dropWhile isPySpace).reverse

/-- Python `line.startswith(">")`. -/
def startsWithGt (l : List Char) : Bool :=
  match l with
  | [] => false
  | c :: _ => c == '>'

/-- Python `str.split(sep)` for a one-character separator, keeping empty
fields, e.g. splitting `"a,,b"` on `,` gives `["a", "", "b"]`. -/
def pySplit (sep : Char) : List Char → List (List Char)
  | [] => [[]]
  | c :: rest =>
    if c = sep then [] :: pySplit sep rest
    else
      match pySplit sep rest with
      | [] => [[c]]
      | t :: ts => (c :: t) :: ts

/-- `read_fasta`: concatenate every non-header line, stripped and upper-cased. -/
def read_fasta (lines : List (List Char)) : List Char :=
  ((lines.filter fun l => !startsWithGt l).map fun l => (strip l).map Char.toUpper).flatten

/-- The 70-column line wrapping of `write_fasta`
(`seq[i:i+70]` for `i in range(0, len(seq), 70)`). -/
def chunks70 : List Char → List (List Char)
  | [] => []
  | c :: rest => ((c :: rest).take 70) :: chunks70 ((c :: rest).drop 70)
termination_by l => l.length
decreasing_by simp [List.length_drop]; omega

/-- The single header line written by `write_fasta`. -/
def fastaHeader : List Char := ">Synthetic_Plasmid".toList

/-- `write_fasta`: the lines written to the output file — one header line
followed by the sequence wrapped at 70 symbols per line. -/
def write_fasta (seq : List Char) : List (List Char) :=
  fastaHeader :: chunks70 seq

/-- The window `genome[i : i+window]`. -/
def regionAt (genome : List Char) (window i : Nat) : List Char :=
  (genome.drop i).take window

/-- The k-mers counted by `find_ori`'s inner loop:
`region[j:j+k]` for `j in range(len(region) - k)`. -/
def kmers (region : List Char) (k : Nat) : List (List Char) :=
  (List.range (region.length - k)).map fun j => (region.drop j).take k

/-- The multiset of values of the k-mer frequency table `freq`
(one count per distinct k-mer key). -/
def freqValues (region : List Char) (k : Nat) : List Nat :=
  (kmers region k).dedup.map fun s => (kmers region k).count s

/-- `max_repeat = max(freq.values())`, as a total function (0 on the empty
table; `windowScore` below reproduces the crash on the empty table). -/
def max_repeat (region : List Char) (k : Nat) : Nat :=
  match freqValues region k with
  | [] => 0
  | v :: vs => vs.foldl max v

/-- `at_content = (region.count("A") + region.count("T")) / len(region)`. -/
def at_content (region : List Char) : ℚ :=
  ((region.count 'A' + region.count 'T' : Nat) : ℚ) / (region.length : ℚ)

/-- The per-window score `max_repeat + at_content * 10`; `none` models the
`ValueError` that `max()` raises on an empty frequency table. -/
def windowScore (region : List Char) (k : Nat) : Option ℚ :=
  match freqValues region k with
  | [] => none
  | v :: vs => some (((vs.foldl max v : Nat) : ℚ) + at_content region * 10)

/-- The per-window score as a total function. -/
def score (region : List Char) (k : Nat) : ℚ :=
  (max_repeat region k : ℚ) + at_content region * 10

/-- One iteration of `find_ori`'s scan: `none` (a previously raised
exception) propagates; otherwise the window is scored and kept when its
score is strictly greater than the best score seen so far. -/
def oriStep (genome : List Char) (k window : Nat)
    (acc : Option (ℚ × List Char)) (i : Nat) : Option (ℚ × List Char) :=
  match acc with
  | none => none
  | some best =>
    match windowScore (regionAt genome window i) k with
    | none => none
    | some sc => some (if best.1 < sc then (sc, regionAt genome window i) else best)

/-- `find_ori(genome, k=9, window=500)`: start from
`best_score = -1, best_region = genome[:window]` and scan the start
offsets `range(len(genome) - window)`. -/
def find_ori (genome : List Char) (k : Nat := 9) (window : Nat := 500) : Option (List Char) :=
  ((List.range (genome.length - window)).foldl (oriStep genome k window)
      (some (-1, genome.take window))).map Prod.snd

/-- `generate_spacer(length=40)`: `length` symbols drawn from `{A, T}` by
the random stream `r`, starting at stream position `pos`; returns the
spacer and the advanced position. -/
def generate_spacer (r : Nat → Bool) (pos : Nat) (length : Nat := 40) : List Char × Nat :=
  (((List.range length).map fun t => if r (pos + t) then 'A' else 'T'), pos + length)

/-- The one Python exception kind raised by the parsing code
(`ValueError` from unpacking a `split` result into two variables). -/
inductive PyError : Type
  | valueError : PyError
deriving DecidableEq

/-- Lookup in an association list modelling a Python dict. -/
def dictGet : List (List Char × List Char) → List Char → Option (List Char)
  | [], _ => none
  | p :: rest, key => if p.1 = key then some p.2 else dictGet rest key

/-- `d[key] = val` on an association list modelling a Python dict:
overwrite in place when the key is present, otherwise append. -/
def dictInsert (m : List (List Char × List Char)) (key val : List Char) :
    List (List Char × List Char) :=
  if m.any fun p => p.1 == key then
    m.map fun p => if p.1 = key then (key, val) else p
  else m ++ [(key, val)]

/-- Processing of one line of the marker file by `read_markers`: skip the
line when it strips to nothing or contains no tab, otherwise split it on
tabs and unpack into exactly two fields. -/
def markerLineStep (markers : List (List Char × List Char)) (line : List Char) :
    Except PyError (List (List Char × List Char)) :=
  let s := strip line
  if s = [] then .ok markers
  else if '\t' ∈ s then
    match pySplit '\t' s with
    | [name, sq] => .ok (dictInsert markers (strip name) ((strip sq).map Char.toUpper))
    | _ => .error .valueError
  else .ok markers

/-- The loop of `read_markers`: an exception raised at one line aborts the
processing of all later lines. -/
def markersFoldStep (acc : Except PyError (List (List Char × List Char)))
    (line : List Char) : Except PyError (List (List Char × List Char)) :=
  match acc with
  | .error e => .error e
  | .ok markers => markerLineStep markers line

/-- `read_markers(filename)` over the lines of the marker file. -/
def read_markers (lines : List (List Char)) :
    Except PyError (List (List Char × List Char)) :=
  lines.foldl markersFoldStep (.ok [])

/-- Processing of one line of the design file by `read_design`: skip blank
lines; split on commas and unpack into a category and a name; classify by
the case-insensitive substring test `"site" in part`. -/
def designStep (acc : Finset (List Char) × Finset (List Char)) (line : List Char) :
    Except PyError (Finset (List Char) × Finset (List Char)) :=
  let s := strip line
  if s = [] then .ok acc
  else
    match pySplit ',' s with
    | [part0, name0] =>
      if "site".toList <:+: (strip part0).map Char.toLower then
        .ok (insert (strip name0) acc.1, acc.2)
      else
        .ok (acc.1, insert (strip name0) acc.2)
    | _ => .error .valueError

/-- The loop of `read_design`: an exception raised at one line aborts the
processing of all later lines. -/
def designFoldStep (acc : Except PyError (Finset (List Char) × Finset (List Char)))
    (line : List Char) : Except PyError (Finset (List Char) × Finset (List Char)) :=
  match acc with
  | .error e => .error e
  | .ok sets => designStep sets line

/-- `read_design(filename)` over the lines of the design file, returning
`(allowed_restrictions, required_markers)`. -/
def read_design (lines : List (List Char)) :
    Except PyError (Finset (List Char) × Finset (List Char)) :=
  lines.foldl designFoldStep (.ok (∅, ∅))

/-- The fixed `RESTRICTION_SITES` dict, in its (deterministic) insertion
order. -/
def RESTRICTION_SITES : List (List Char × List Char) :=
  [("EcoRI".toList, "GAATTC".toList),
   ("BamHI".toList, "GGATCC".toList),
   ("HindIII".toList, "AAGCTT".toList),
   ("PstI".toList, "CTGCAG".toList),
   ("XbaI".toList, "TCTAGA".toList),
   ("KpnI".toList, "GGTACC".toList),
   ("SacI".toList, "GAGCTC".toList),
   ("SmaI".toList, "CCCGGG".toList)]

/-- Python `genome.replace(site, "")`: remove the occurrences of `site`
left to right, without rescanning the part already emitted. -/
def replaceAll (l site : List Char) : List Char :=
  if hs : site = [] then l
  else if hp : site <+: l then replaceAll (l.drop site.length) site
  else
    match l with
    | [] => []
    | c :: rest => c :: replaceAll rest site
termination_by l.length
decreasing_by
  · have h1 : site.length ≤ l.length := hp.length_le
    have h3 : 0 < site.length := List.length_pos.mpr hs
    simp [List.length_drop]
    omega
  · simp

/-- Step 1 of `build_plasmid`: for every catalog enzyme not in
`allowed_sites`, remove its recognition sequence from the genome. -/
def filterGenome (genome : List Char) (allowed_sites : List (List Char)) : List Char :=
  RESTRICTION_SITES.foldl
    (fun g p => if p.1 ∈ allowed_sites then g else replaceAll g p.2) genome

/-- Step 2 of `build_plasmid`, for one allowed enzyme: when it is in the
catalog, append its site and a length-10 spacer. -/
def appendSite (r : Nat → Bool) (acc : List Char × Nat) (enzyme : List Char) :
    List Char × Nat :=
  match dictGet RESTRICTION_SITES enzyme with
  | some site => ((acc.1 ++ site) ++ (generate_spacer r acc.2 10).1, (generate_spacer r acc.2 10).2)
  | none => acc

/-- Step 3 of `build_plasmid`, for one required marker: when it is in the
marker table, append its sequence and a length-20 spacer (a missing marker
is skipped with a warning). -/
def appendMarker (r : Nat → Bool) (markers : List (List Char × List Char))
    (acc : List Char × Nat) (marker : List Char) : List Char × Nat :=
  match dictGet markers marker with
  | some sq => ((acc.1 ++ sq) ++ (generate_spacer r acc.2 20).1, (generate_spacer r acc.2 20).2)
  | none => acc

/-- `build_plasmid(genome, ori, allowed_sites, markers, required_markers)`:
filter the genome (result unused by the original code), then assemble
`ori`, a spacer, the allowed sites, another spacer and the required
markers.  Returns the plasmid together with the advanced stream position. -/
def build_plasmid (r : Nat → Bool) (pos : Nat) (genome ori : List Char)
    (allowed_sites : List (List Char)) (markers : List (List Char × List Char))
    (required_markers : List (List Char)) : List Char × Nat :=
  let _genome := filterGenome genome allowed_sites
  let s1 := generate_spacer r pos 40
  let acc1 := allowed_sites.foldl (appendSite r) (ori ++ s1.1, s1.2)
  let s2 := generate_spacer r acc1.2 40
  required_markers.foldl (appendMarker r markers) (acc1.1 ++ s2.1, s2.2)

/-- The two assertion messages of `validate_plasmid`. -/
inductive ValidationError : Type
  | oriMissing : ValidationError
  | plasmidTooSmall : ValidationError
deriving DecidableEq

/-- `validate_plasmid(plasmid, ori)`: assert that `ori` occurs in
`plasmid`, then that the plasmid is strictly longer than the ORI. -/
def validate_plasmid (plasmid ori : List Char) : Except ValidationError Unit :=
  if ori <:+: plasmid then
    if ori.length < plasmid.length then .ok ()
    else .error .plasmidTooSmall
  else .error .oriMissing

/-- The seed of a `foldl max` is a lower bound of the result. -/
lemma le_foldl_max (l : List Nat) (a : Nat) : a ≤ l.foldl max a := by
  induction l generalizing a with
  | nil => exact Nat.le_refl a
  | cons b t ih =>
    rw [List.foldl_cons]
    exact le_trans (le_max_left a b) (ih (max a b))

/-- Every element of the list is bounded by its `foldl max`. -/
lemma foldl_max_le (l : List Nat) (a : Nat) : ∀ x ∈ l, x ≤ l.foldl max a := by
  induction l generalizing a with
  | nil => intro x hx; simp at hx
  | cons b t ih =>
    intro x hx
    rw [List.foldl_cons]
    rcases List.mem_cons.mp hx with rfl | hx'
    · exact le_trans (le_max_right a x) (le_foldl_max t (max a x))
    · exact ih (max a b) x hx'

/-- A `foldl max` is the seed or one of the elements. -/
lemma foldl_max_mem (l : List Nat) (a : Nat) : l.foldl max a = a ∨ l.foldl max a ∈ l := by
  induction l generalizing a with
  | nil => exact Or.inl rfl
  | cons b t ih =>
    rw [List.foldl_cons]
    rcases ih (max a b) with h | h
    · rw [h]
      rcases max_choice a b with h2 | h2
      · exact Or.inl h2
      · rw [h2]
        exact Or.inr (List.mem_cons_self b t)
    · exact Or.inr (List.mem_cons_of_mem b h)

/-- Every element of a `Nat` cons list is bounded by the max of the list. -/
lemma mem_le_foldl_max (v : Nat) (vs : List Nat) (x : Nat) (hx : x ∈ v :: vs) :
    x ≤ vs.foldl max v := by
  rcases List.mem_cons.mp hx with rfl | hx'
  · exact le_foldl_max vs x
  · exact foldl_max_le vs v x hx'

/-- A window longer than `k` yields at least one k-mer. -/
lemma kmers_ne_nil (region : List Char) (k : Nat) (h : k < region.length) :
    kmers region k ≠ [] := by
  intro hc
  rw [kmers, List.map_eq_nil, List.range_eq_nil] at hc
  omega

/-- A window longer than `k` has a non-empty frequency table. -/
lemma freqValues_ne_nil (region : List Char) (k : Nat) (h : k < region.length) :
    freqValues region k ≠ [] := by
  intro hc
  apply kmers_ne_nil region k h
  rw [freqValues, List.map_eq_nil, List.dedup_eq_nil] at hc
  exact hc

/-- On a window longer than `k`, the scoring does not raise and computes
`score`. -/
lemma windowScore_eq_some (region : List Char) (k : Nat) (h : k < region.length) :
    windowScore region k = some (score region k) := by
  rcases hfv : freqValues region k with _ | ⟨v, vs⟩
  · exact absurd hfv (freqValues_ne_nil region k h)
  · simp [windowScore, score, max_repeat, hfv]

/-- On a window longer than `k`, some k-mer occurs, so the most repeated
k-mer occurs at least once. -/
lemma one_le_max_repeat (region : List Char) (k : Nat) (h : k < region.length) :
    1 ≤ max_repeat region k := by
  rcases hfv : freqValues region k with _ | ⟨v, vs⟩
  · exact absurd hfv (freqValues_ne_nil region k h)
  · have hvmem : v ∈ freqValues region k := by
      rw [hfv]; exact List.mem_cons_self v vs
    rw [freqValues] at hvmem
    obtain ⟨s, hs, hv⟩ := List.mem_map.mp hvmem
    have hsk : s ∈ kmers region k := List.mem_dedup.mp hs
    have h1 : 1 ≤ v := by
      rw [← hv]
      exact List.count_pos_iff.mpr hsk
    calc 1 ≤ v := h1
      _ ≤ vs.foldl max v := le_foldl_max vs v
      _ = max_repeat region k := by rw [max_repeat, hfv]

/-- AT-content is never negative. -/
lemma at_content_nonneg (region : List Char) : 0 ≤ at_content region := by
  rw [at_content]
  apply div_nonneg
  · exact_mod_cast Nat.zero_le _
  · exact_mod_cast Nat.zero_le _

/-- Every window score beats the initial `best_score = -1`. -/
lemma neg_one_lt_score (region : List Char) (k : Nat) (h : k < region.length) :
    (-1 : ℚ) < score region k := by
  have h1 : (1 : ℚ) ≤ (max_repeat region k : ℚ) := by
    exact_mod_cast one_le_max_repeat region k h
  have h2 : (0 : ℚ) ≤ at_content region * 10 :=
    mul_nonneg (at_content_nonneg region) (by norm_num)
  rw [score]
  linarith

/-- Every window that the scan visits has length exactly `window`. -/
lemma regionAt_length (genome : List Char) (window i : Nat)
    (hi : i + window ≤ genome.length) : (regionAt genome window i).length = window := by
  rw [regionAt, List.length_take, List.length_drop]
  omega

/-- The pure counterpart of one scan iteration, tracking the best score
and the best start offset. -/
def bestStep (f : Nat → ℚ) (best : ℚ × Nat) (i : Nat) : ℚ × Nat :=
  if best.1 < f i then (f i, i) else best

/-- The pure counterpart of the whole scan over offsets `0, …, n-1`. -/
def bestPair (f : Nat → ℚ) (n : Nat) : ℚ × Nat :=
  (List.range n).foldl (bestStep f) (-1, 0)

/-- When no window raises, `find_ori`'s fold agrees with the pure
best-score fold over start offsets. -/
lemma foldl_oriStep_eq (genome : List Char) (k window : Nat) (f : Nat → ℚ)
    (l : List Nat) :
    (∀ i ∈ l, windowScore (regionAt genome window i) k = some (f i)) →
    ∀ (s : ℚ) (idx : Nat),
      l.foldl (oriStep genome k window) (some (s, regionAt genome window idx))
        = some ((l.foldl (bestStep f) (s, idx)).1,
            regionAt genome window (l.foldl (bestStep f) (s, idx)).2) := by
  induction l with
  | nil => intro _ s idx; rfl
  | cons a t ih =>
    intro hl s idx
    have ha : windowScore (regionAt genome window a) k = some (f a) :=
      hl a (List.mem_cons_self a t)
    have ht : ∀ i ∈ t, windowScore (regionAt genome window i) k = some (f i) :=
      fun i hi => hl i (List.mem_cons_of_mem a hi)
    rw [List.foldl_cons, List.foldl_cons]
    have hstep : oriStep genome k window (some (s, regionAt genome window idx)) a
        = some (if s < f a then (f a, regionAt genome window a)
                else (s, regionAt genome window idx)) := by
      simp [oriStep, ha]
    rw [hstep]
    by_cases hc : s < f a
    · have hb : bestStep f (s, idx) a = (f a, a) := by simp [bestStep, hc]
      rw [if_pos hc, hb]
      exact ih ht (f a) a
    · have hb : bestStep f (s, idx) a = (s, idx) := by simp [bestStep, hc]
      rw [if_neg hc, hb]
      exact ih ht s idx

/-- The pure fold returns the first start offset attaining the maximal
score, provided the score of offset 0 beats the initial `-1`. -/
lemma bestPair_spec (f : Nat → ℚ) (h0 : (-1 : ℚ) < f 0) :
    ∀ n, 0 < n →
      (bestPair f n).2 < n ∧
      (bestPair f n).1 = f (bestPair f n).2 ∧
      (∀ i, i < n → f i ≤ (bestPair f n).1) ∧
      (∀ j, j < (bestPair f n).2 → f j < (bestPair f n).1) := by
  intro n
  induction n with
  | zero => intro h; exact absurd h (lt_irrefl 0)
  | succ m ih =>
    intro _
    have hunf : bestPair f (m + 1) = bestStep f (bestPair f m) m := by
      unfold bestPair
      rw [List.range_succ, List.foldl_append, List.foldl_cons, List.foldl_nil]
    rcases Nat.eq_zero_or_pos m with rfl | hm
    · have h1 : bestPair f 0 = (-1, 0) := rfl
      rw [hunf, h1]
      simp only [bestStep]
      rw [if_pos h0]
      refine ⟨Nat.zero_lt_one, rfl, ?_, ?_⟩
      · intro i hi
        have : i = 0 := by omega
        rw [this]
      · intro j hj
        exact absurd hj (Nat.not_lt_zero j)
    · obtain ⟨hlt, heq, hmax, hfirst⟩ := ih hm
      rw [hunf]
      simp only [bestStep]
      by_cases hc : (bestPair f m).1 < f m
      · rw [if_pos hc]
        refine ⟨Nat.lt_succ_self m, rfl, ?_, ?_⟩
        · intro i hi
          rcases Nat.lt_succ_iff_lt_or_eq.mp hi with hi' | rfl
          · exact le_of_lt (lt_of_le_of_lt (hmax i hi') hc)
          · exact le_refl _
        · intro j hj
          exact lt_of_le_of_lt (hmax j hj) hc
      · rw [if_neg hc]
        refine ⟨Nat.lt_succ_of_lt hlt, heq, ?_, hfirst⟩
        intro i hi
        rcases Nat.lt_succ_iff_lt_or_eq.mp hi with hi' | rfl
        · exact hmax i hi'
        · rw [heq] at hc ⊢
          exact not_lt.mp hc

/-- Claim C1: for every genome strictly longer than `window` (and a k-mer
size `k` smaller than `window`, so that scoring is defined), `find_ori`
returns a contiguous length-`window` substring of the genome attaining the
maximum score over all start offsets in `[0, len(genome) - window)`, and
among the offsets attaining that maximum it returns the lowest one (the
strict `>` comparison keeps the first-seen maximal window). -/
theorem find_ori_selects_best (genome : List Char) (k window : Nat)
    (hw : window < genome.length) (hk : k < window) :
    ∃ i₀, i₀ < genome.length - window ∧
      find_ori genome k window = some (regionAt genome window i₀) ∧
      (regionAt genome window i₀).length = window ∧
      (∃ u v, u ++ regionAt genome window i₀ ++ v = genome) ∧
      (∀ i, i < genome.length - window →
        score (regionAt genome window i) k ≤ score (regionAt genome window i₀) k) ∧
      (∀ j, j < i₀ →
        score (regionAt genome window j) k < score (regionAt genome window i₀) k) := by
  have hlen0 : (regionAt genome window 0).length = window :=
    regionAt_length genome window 0 (by omega)
  have hl : ∀ i ∈ List.range (genome.length - window),
      windowScore (regionAt genome window i) k
        = some (score (regionAt genome window i) k) := by
    intro i hi
    have hi' : i < genome.length - window := List.mem_range.mp hi
    have : (regionAt genome window i).length = window :=
      regionAt_length genome window i (by omega)
    exact windowScore_eq_some _ k (by omega)
  have h0 : (-1 : ℚ) < score (regionAt genome window 0) k :=
    neg_one_lt_score _ k (by omega)
  have hn : 0 < genome.length - window := by omega
  obtain ⟨hlt, heq, hmax, hfirst⟩ :=
    bestPair_spec (fun i => score (regionAt genome window i) k) h0
      (genome.length - window) hn
  set p := bestPair (fun i => score (regionAt genome window i) k)
      (genome.length - window) with hp
  refine ⟨p.2, hlt, ?_, ?_, ?_, ?_, ?_⟩
  · rw [find_ori]
    have h00 : genome.take window = regionAt genome window 0 := by
      rw [regionAt, List.drop_zero]
    rw [h00]
    rw [foldl_oriStep_eq genome k window
      (fun i => score (regionAt genome window i) k)
      (List.range (genome.length - window)) hl (-1) 0]
    rfl
  · exact regionAt_length genome window p.2 (by omega)
  · refine ⟨genome.take p.2, genome.drop (p.2 + window), ?_⟩
    have hdd : (genome.drop p.2).drop window = genome.drop (p.2 + window) := by
      rw [List.drop_drop]
    rw [List.append_assoc, regionAt, ← hdd, List.take_append_drop,
      List.take_append_drop]
  · intro i hi
    have := hmax i hi
    rw [heq] at this
    exact this
  · intro j hj
    have := hfirst j hj
    rw [heq] at this
    exact this

/-- Witness for C1 at the concrete genome `"AAT"`, `k = 1`, `window = 2`. -/
theorem find_ori_selects_best_witness :
    (2 < (['A', 'A', 'T'] : List Char).length ∧ 1 < 2) ∧
    (∃ i₀, i₀ < (['A', 'A', 'T'] : List Char).length - 2 ∧
      find_ori ['A', 'A', 'T'] 1 2 = some (regionAt ['A', 'A', 'T'] 2 i₀) ∧
      (regionAt ['A', 'A', 'T'] 2 i₀).length = 2 ∧
      (∃ u v, u ++ regionAt ['A', 'A', 'T'] 2 i₀ ++ v = ['A', 'A', 'T']) ∧
      (∀ i, i < (['A', 'A', 'T'] : List Char).length - 2 →
        score (regionAt ['A', 'A', 'T'] 2 i) 1 ≤ score (regionAt ['A', 'A', 'T'] 2 i₀) 1) ∧
      (∀ j, j < i₀ →
        score (regionAt ['A', 'A', 'T'] 2 j) 1 < score (regionAt ['A', 'A', 'T'] 2 i₀) 1)) :=
  ⟨⟨by decide, by decide⟩, find_ori_selects_best ['A', 'A', 'T'] 1 2 (by decide) (by decide)⟩

/-- Claim C2: when the genome is no longer than `window`, the scan range is
empty and `find_ori` deterministically returns the first `window` symbols
of the genome — the whole genome when it is shorter — without scoring. -/
theorem find_ori_short (genome : List Char) (k window : Nat)
    (h : genome.length ≤ window) :
    find_ori genome k window = some (genome.take window) ∧
    genome.take window = genome := by
  constructor
  · rw [find_ori, Nat.sub_eq_zero_of_le h]
    rfl
  · exact List.take_of_length_le h

/-- Witness for C2 at the concrete genome `"AC"` with the default
parameters `k = 9`, `window = 500`. -/
theorem find_ori_short_witness :
    ((['A', 'C'] : List Char).length ≤ 500) ∧
    (find_ori ['A', 'C'] 9 500 = some ((['A', 'C'] : List Char).take 500) ∧
      (['A', 'C'] : List Char).take 500 = ['A', 'C']) :=
  ⟨by decide, find_ori_short ['A', 'C'] 9 500 (by decide)⟩

/-- Claim C3: with `k ≥ window` every window has an empty k-mer frequency
table, and the code crashes in `max(freq.values())` (modelled by `none`)
on the very first window instead of failing with a distinguished
`InvalidParameter` error: concretely, for the genome `"AAAAA"`, which is
strictly longer than `window = 3`, and `k = 3 ≥ window`. -/
theorem find_ori_empty_table_crash :
    3 < ("AAAAA".toList).length ∧ 3 ≤ 3 ∧
    windowScore (regionAt ("AAAAA".toList) 3 0) 3 = none ∧
    find_ori ("AAAAA".toList) 3 3 = none :=
  ⟨by decide, by decide, rfl, rfl⟩

/-- Claim C4: on every window the scan visits (with `k < window`), the
score is `max_repeat + at_content * 10` where the frequency table counts
exactly `window - k` overlapping length-`k` substrings — those starting at
offsets `0, …, window - k - 1`, excluding the final offset `window - k` —
`max_repeat` is the largest count in the table (some k-mer attains it),
and `at_content` is the number of `A`s and `T`s divided by `window`. -/
theorem windowScore_formula (genome : List Char) (k window i : Nat)
    (hi : i < genome.length - window) (hk : k < window) :
    windowScore (regionAt genome window i) k
      = some ((max_repeat (regionAt genome window i) k : ℚ)
          + (((regionAt genome window i).count 'A'
              + (regionAt genome window i).count 'T' : Nat) : ℚ)
            / (window : ℚ) * 10) ∧
    (kmers (regionAt genome window i) k).length = window - k ∧
    (∀ j, j < window - k →
        (kmers (regionAt genome window i) k)[j]?
          = some (((regionAt genome window i).drop j).take k)) ∧
    (∀ s ∈ kmers (regionAt genome window i) k, s.length = k) ∧
    (∀ s ∈ kmers (regionAt genome window i) k,
        (kmers (regionAt genome window i) k).count s
          ≤ max_repeat (regionAt genome window i) k) ∧
    (∃ s ∈ kmers (regionAt genome window i) k,
        (kmers (regionAt genome window i) k).count s
          = max_repeat (regionAt genome window i) k) := by
  set region := regionAt genome window i with hregion
  have hlen : region.length = window := regionAt_length genome window i (by omega)
  have hk' : k < region.length := by omega
  refine ⟨?_, ?_, ?_, ?_, ?_, ?_⟩
  · rw [windowScore_eq_some region k hk', score, at_content, hlen]
  · rw [kmers, List.length_map, List.length_range, hlen]
  · intro j hj
    rw [kmers, List.getElem?_map, List.getElem?_range (by omega : j < region.length - k)]
    rfl
  · intro s hs
    obtain ⟨j, hj, hsj⟩ := List.mem_map.mp hs
    have hj' : j < region.length - k := List.mem_range.mp hj
    rw [← hsj, List.length_take, List.length_drop]
    omega
  · intro s hs
    have hcmem : (kmers region k).count s ∈ freqValues region k := by
      rw [freqValues]
      exact List.mem_map.mpr ⟨s, List.mem_dedup.mpr hs, rfl⟩
    rcases hfv : freqValues region k with _ | ⟨v, vs⟩
    · exact absurd hfv (freqValues_ne_nil region k hk')
    · rw [hfv] at hcmem
      have : max_repeat region k = vs.foldl max v := by rw [max_repeat, hfv]
      rw [this]
      exact mem_le_foldl_max v vs _ hcmem
  · rcases hfv : freqValues region k with _ | ⟨v, vs⟩
    · exact absurd hfv (freqValues_ne_nil region k hk')
    · have hmr : max_repeat region k = vs.foldl max v := by rw [max_repeat, hfv]
      have hmem : max_repeat region k ∈ freqValues region k := by
        rw [hfv, hmr]
        rcases foldl_max_mem vs v with h | h
        · rw [h]; exact List.mem_cons_self v vs
        · exact List.mem_cons_of_mem v h
      rw [freqValues] at hmem
      obtain ⟨s, hs, hsc⟩ := List.mem_map.mp hmem
      exact ⟨s, List.mem_dedup.mp hs, hsc⟩

/-- Witness for C4 at the concrete genome `"AAT"`, `k = 1`, `window = 2`,
offset `i = 0`. -/
theorem windowScore_formula_witness :
    (0 < (['A', 'A', 'T'] : List Char).length - 2 ∧ 1 < 2) ∧
    (windowScore (regionAt ['A', 'A', 'T'] 2 0) 1
      = some ((max_repeat (regionAt ['A', 'A', 'T'] 2 0) 1 : ℚ)
          + (((regionAt ['A', 'A', 'T'] 2 0).count 'A'
              + (regionAt ['A', 'A', 'T'] 2 0).count 'T' : Nat) : ℚ)
            / (2 : ℚ) * 10) ∧
    (kmers (regionAt ['A', 'A', 'T'] 2 0) 1).length = 2 - 1 ∧
    (∀ j, j < 2 - 1 →
        (kmers (regionAt ['A', 'A', 'T'] 2 0) 1)[j]?
          = some (((regionAt ['A', 'A', 'T'] 2 0).drop j).take 1)) ∧
    (∀ s ∈ kmers (regionAt ['A', 'A', 'T'] 2 0) 1, s.length = 1) ∧
    (∀ s ∈ kmers (regionAt ['A', 'A', 'T'] 2 0) 1,
        (kmers (regionAt ['A', 'A', 'T'] 2 0) 1).count s
          ≤ max_repeat (regionAt ['A', 'A', 'T'] 2 0) 1) ∧
    (∃ s ∈ kmers (regionAt ['A', 'A', 'T'] 2 0) 1,
        (kmers (regionAt ['A', 'A', 'T'] 2 0) 1).count s
          = max_repeat (regionAt ['A', 'A', 'T'] 2 0) 1)) :=
  ⟨⟨by decide, by decide⟩, windowScore_formula ['A', 'A', 'T'] 1 2 0 (by decide) (by decide)⟩

/-- Claim C5: the plasmid built by `build_plasmid` does not depend on the
genome argument — the genome filtered of disallowed restriction sites in
step 1 is never used in assembly, so two runs differing only in the genome
(same ORI, sites, markers and random stream) produce identical output. -/
theorem build_plasmid_genome_independent (r : Nat → Bool) (pos : Nat)
    (g1 g2 ori : List Char) (allowed_sites : List (List Char))
    (markers : List (List Char × List Char)) (required_markers : List (List Char)) :
    build_plasmid r pos g1 ori allowed_sites markers required_markers
      = build_plasmid r pos g2 ori allowed_sites markers required_markers := rfl

/-- Witness for C5 at two distinct concrete genomes. -/
theorem build_plasmid_genome_independent_witness :
    build_plasmid (fun _ => true) 0 ['G', 'G', 'A'] ['A', 'C'] [("EcoRI".toList)]
        [(['m'], ['T', 'T'])] [['m']]
      = build_plasmid (fun _ => true) 0 ['C'] ['A', 'C'] [("EcoRI".toList)]
        [(['m'], ['T', 'T'])] [['m']] :=
  build_plasmid_genome_independent (fun _ => true) 0 ['G', 'G', 'A'] ['C'] ['A', 'C']
    [("EcoRI".toList)] [(['m'], ['T', 'T'])] [['m']]

/-- Helper shared by the validator claims: a plasmid containing the ORI
and strictly longer than it validates. -/
lemma validate_plasmid_ok (plasmid ori : List Char)
    (h1 : ori <:+: plasmid) (h2 : ori.length < plasmid.length) :
    validate_plasmid plasmid ori = .ok () := by
  rw [validate_plasmid, if_pos h1, if_pos h2]

/-- Claim C6: `validate_plasmid` fails with `"ORI missing"` exactly when
the ORI is not a contiguous substring of the plasmid; when the ORI is a
substring it fails with `"Plasmid too small"` exactly when the plasmid is
not strictly longer than the ORI; and it succeeds when the ORI is a
substring and the plasmid is strictly longer. -/
theorem validate_plasmid_spec (plasmid ori : List Char) :
    (validate_plasmid plasmid ori = .error .oriMissing ↔ ¬ ori <:+: plasmid) ∧
    (ori <:+: plasmid →
      (validate_plasmid plasmid ori = .error .plasmidTooSmall ↔
        plasmid.length ≤ ori.length)) ∧
    (ori <:+: plasmid → ori.length < plasmid.length →
      validate_plasmid plasmid ori = .ok ()) := by
  refine ⟨?_, ?_, validate_plasmid_ok plasmid ori⟩
  · by_cases h1 : ori <:+: plasmid
    · rw [validate_plasmid, if_pos h1]
      by_cases h2 : ori.length < plasmid.length
      · rw [if_pos h2]
        simp [h1]
      · rw [if_neg h2]
        simp [h1]
    · rw [validate_plasmid, if_neg h1]
      simp [h1]
  · intro h1
    rw [validate_plasmid, if_pos h1]
    by_cases h2 : ori.length < plasmid.length
    · rw [if_pos h2]
      simp
      omega
    · rw [if_neg h2]
      simp
      omega

/-- Witness for C6: the success branch at a concrete plasmid and ORI. -/
theorem validate_plasmid_spec_witness :
    validate_plasmid ['A', 'T', 'C', 'G'] ['T', 'C'] = .ok () :=
  (validate_plasmid_spec ['A', 'T', 'C', 'G'] ['T', 'C']).2.2 (by decide) (by decide)

/-- A spacer has exactly the requested length. -/
lemma generate_spacer_length (r : Nat → Bool) (pos n : Nat) :
    (generate_spacer r pos n).1.length = n := by
  rw [generate_spacer]
  simp

/-- A fold whose step only ever appends to the plasmid extends its input. -/
lemma foldl_extends (step : (List Char × Nat) → List Char → List Char × Nat)
    (hstep : ∀ acc x, ∃ t, (step acc x).1 = acc.1 ++ t) (l : List (List Char)) :
    ∀ acc, ∃ t, (l.foldl step acc).1 = acc.1 ++ t := by
  induction l with
  | nil => intro acc; exact ⟨[], (List.append_nil _).symm⟩
  | cons a tl ih =>
    intro acc
    obtain ⟨t1, h1⟩ := hstep acc a
    obtain ⟨t2, h2⟩ := ih (step acc a)
    refine ⟨t1 ++ t2, ?_⟩
    rw [List.foldl_cons, h2, h1, List.append_assoc]

/-- Appending one allowed restriction site only appends to the plasmid. -/
lemma appendSite_extends (r : Nat → Bool) :
    ∀ (acc : List Char × Nat) (e : List Char),
      ∃ t, (appendSite r acc e).1 = acc.1 ++ t := by
  intro acc e
  rcases h : dictGet RESTRICTION_SITES e with _ | site
  · exact ⟨[], by simp [appendSite, h]⟩
  · exact ⟨site ++ (generate_spacer r acc.2 10).1, by simp [appendSite, h, List.append_assoc]⟩

/-- Appending one required marker only appends to the plasmid. -/
lemma appendMarker_extends (r : Nat → Bool) (markers : List (List Char × List Char)) :
    ∀ (acc : List Char × Nat) (m : List Char),
      ∃ t, (appendMarker r markers acc m).1 = acc.1 ++ t := by
  intro acc m
  rcases h : dictGet markers m with _ | sq
  · exact ⟨[], by simp [appendMarker, h]⟩
  · exact ⟨sq ++ (generate_spacer r acc.2 20).1, by simp [appendMarker, h, List.append_assoc]⟩

/-- `build_plasmid` with its let-bindings unfolded. -/
lemma build_plasmid_unfold (r : Nat → Bool) (pos : Nat) (genome ori : List Char)
    (allowed_sites : List (List Char)) (markers : List (List Char × List Char))
    (required_markers : List (List Char)) :
    build_plasmid r pos genome ori allowed_sites markers required_markers
      = required_markers.foldl (appendMarker r markers)
          ((allowed_sites.foldl (appendSite r)
              (ori ++ (generate_spacer r pos 40).1, (generate_spacer r pos 40).2)).1
            ++ (generate_spacer r (allowed_sites.foldl (appendSite r)
                (ori ++ (generate_spacer r pos 40).1, (generate_spacer r pos 40).2)).2 40).1,
           (generate_spacer r (allowed_sites.foldl (appendSite r)
                (ori ++ (generate_spacer r pos 40).1, (generate_spacer r pos 40).2)).2 40).2) := rfl

/-- Claim C9: whatever the arguments and the random stream, the plasmid
built by `build_plasmid` starts with the ORI (hence contains it as a
contiguous substring) and is at least `len(ori) + 80` long — the two
default length-40 spacers are always appended — so `validate_plasmid`
always succeeds on any output of `build_plasmid`. -/
theorem build_plasmid_validates (r : Nat → Bool) (pos : Nat) (genome ori : List Char)
    (allowed_sites : List (List Char)) (markers : List (List Char × List Char))
    (required_markers : List (List Char)) :
    (∃ t, (build_plasmid r pos genome ori allowed_sites markers required_markers).1
        = ori ++ t) ∧
    ori.length + 80
      ≤ (build_plasmid r pos genome ori allowed_sites markers required_markers).1.length ∧
    validate_plasmid
        (build_plasmid r pos genome ori allowed_sites markers required_markers).1 ori
      = .ok () := by
  rw [build_plasmid_unfold]
  set s1 := (generate_spacer r pos 40).1 with hs1
  set acc1 := allowed_sites.foldl (appendSite r)
      (ori ++ s1, (generate_spacer r pos 40).2) with hacc1
  set s2 := (generate_spacer r acc1.2 40).1 with hs2
  obtain ⟨t1, h1⟩ := foldl_extends (appendSite r) (appendSite_extends r) allowed_sites
      (ori ++ s1, (generate_spacer r pos 40).2)
  obtain ⟨t2, h2⟩ := foldl_extends (appendMarker r markers) (appendMarker_extends r markers)
      required_markers (acc1.1 ++ s2, (generate_spacer r acc1.2 40).2)
  rw [← hacc1] at h1
  have hplasmid :
      (required_markers.foldl (appendMarker r markers)
        (acc1.1 ++ s2, (generate_spacer r acc1.2 40).2)).1
      = ori ++ (s1 ++ t1 ++ s2 ++ t2) := by
    rw [h2, h1]
    simp [List.append_assoc]
  have hlens1 : s1.length = 40 := by rw [hs1, generate_spacer_length]
  have hlens2 : s2.length = 40 := by rw [hs2, generate_spacer_length]
  have hlen : ori.length + 80
      ≤ (required_markers.foldl (appendMarker r markers)
          (acc1.1 ++ s2, (generate_spacer r acc1.2 40).2)).1.length := by
    rw [hplasmid]
    simp [List.length_append, hlens1, hlens2]
    omega
  refine ⟨⟨s1 ++ t1 ++ s2 ++ t2, hplasmid⟩, hlen, ?_⟩
  apply validate_plasmid_ok
  · exact ⟨[], s1 ++ t1 ++ s2 ++ t2, by rw [List.nil_append, hplasmid]⟩
  · omega

/-- Witness for C9 at concrete arguments. -/
theorem build_plasmid_validates_witness :
    (∃ t, (build_plasmid (fun _ => false) 0 ['G'] ['A', 'C'] [("EcoRI".toList)]
        [(['m'], ['T', 'T'])] [['m']]).1 = ['A', 'C'] ++ t) ∧
    (['A', 'C'] : List Char).length + 80
      ≤ (build_plasmid (fun _ => false) 0 ['G'] ['A', 'C'] [("EcoRI".toList)]
          [(['m'], ['T', 'T'])] [['m']]).1.length ∧
    validate_plasmid (build_plasmid (fun _ => false) 0 ['G'] ['A', 'C'] [("EcoRI".toList)]
        [(['m'], ['T', 'T'])] [['m']]).1 ['A', 'C'] = .ok () :=
  build_plasmid_validates (fun _ => false) 0 ['G'] ['A', 'C'] [("EcoRI".toList)]
    [(['m'], ['T', 'T'])] [['m']]

/-- `dropWhile` is the identity when the predicate fails on every element. -/
lemma dropWhile_eq_self (p : Char → Bool) (l : List Char)
    (h : ∀ c ∈ l, p c = false) : l.dropWhile p = l := by
  cases l with
  | nil => rfl
  | cons a t =>
    rw [List.dropWhile_cons, h a (List.mem_cons_self a t)]
    simp

/-- `strip` is the identity on lists without whitespace. -/
lemma strip_eq_self (l : List Char) (h : ∀ c ∈ l, isPySpace c = false) :
    strip l = l := by
  rw [strip, dropWhile_eq_self isPySpace l h,
    dropWhile_eq_self isPySpace l.reverse (fun c hc => h c (List.mem_reverse.mp hc)),
    List.reverse_reverse]

/-- Upper-casing is the identity on lists of already upper-case symbols. -/
lemma map_toUpper_eq_self (l : List Char) (h : ∀ c ∈ l, c.toUpper = c) :
    l.map Char.toUpper = l := by
  rw [List.map_congr_left h]
  simp

/-- Reading back the wrapped chunks of a pure `{A,C,G,T}` sequence —
no chunk looks like a header, stripping and upper-casing change nothing,
and the chunks concatenate back to the sequence. -/
lemma chunks70_read (n : Nat) :
    ∀ l : List Char, l.length ≤ n →
      (∀ c ∈ l, c = 'A' ∨ c = 'C' ∨ c = 'G' ∨ c = 'T') →
      (((chunks70 l).filter fun s => !startsWithGt s).map
          fun s => (strip s).map Char.toUpper).flatten = l := by
  induction n with
  | zero =>
    intro l hl _
    have : l = [] := List.eq_nil_of_length_eq_zero (Nat.le_zero.mp hl)
    rw [this]
    simp [chunks70]
  | succ m ih =>
    intro l hl hacgt
    match l with
    | [] => simp [chunks70]
    | c :: rest =>
      have hc := hacgt c (List.mem_cons_self c rest)
      have hchunk : ∀ x ∈ (c :: rest).take 70, x = 'A' ∨ x = 'C' ∨ x = 'G' ∨ x = 'T' :=
        fun x hx => hacgt x (List.mem_of_mem_take hx)
      have hdrop : ∀ x ∈ (c :: rest).drop 70, x = 'A' ∨ x = 'C' ∨ x = 'G' ∨ x = 'T' :=
        fun x hx => hacgt x (List.mem_of_mem_drop hx)
      have hhead : startsWithGt ((c :: rest).take 70) = false := by
        have : (c :: rest).take 70 = c :: rest.take 69 := rfl
        rw [this, startsWithGt]
        rcases hc with h | h | h | h <;> rw [h] <;> rfl
      have hkeep : (strip ((c :: rest).take 70)).map Char.toUpper = (c :: rest).take 70 := by
        rw [strip_eq_self _ (fun x hx => by
          rcases hchunk x hx with h | h | h | h <;> rw [h] <;> rfl)]
        exact map_toUpper_eq_self _ (fun x hx => by
          rcases hchunk x hx with h | h | h | h <;> rw [h] <;> rfl)
      rw [chunks70, List.filter_cons, hhead]
      simp only [Bool.not_false, if_pos]
      rw [List.map_cons, List.flatten_cons, hkeep]
      rw [ih ((c :: rest).drop 70) (by simp at hl ⊢; omega) hdrop]
      exact List.take_append_drop 70 (c :: rest)

/-- Claim C7: for every sequence over `{A,C,G,T}`, writing with
`write_fasta` and reading the produced lines back with `read_fasta`
returns exactly the original sequence — the header line is ignored and
the 70-column wrapping is undone. -/
theorem fasta_round_trip (seq : List Char)
    (h : ∀ c ∈ seq, c = 'A' ∨ c = 'C' ∨ c = 'G' ∨ c = 'T') :
    read_fasta (write_fasta seq) = seq := by
  rw [write_fasta, read_fasta, List.filter_cons]
  have hh : (!startsWithGt fastaHeader) = false := rfl
  rw [hh]
  simp only [Bool.false_eq_true, if_neg, not_false_eq_true]
  exact chunks70_read seq.length seq (le_refl _) h

/-- Witness for C7 at the concrete sequence `"ACGTT"`. -/
theorem fasta_round_trip_witness :
    (∀ c ∈ (['A', 'C', 'G', 'T', 'T'] : List Char),
      c = 'A' ∨ c = 'C' ∨ c = 'G' ∨ c = 'T') ∧
    read_fasta (write_fasta ['A', 'C', 'G', 'T', 'T']) = ['A', 'C', 'G', 'T', 'T'] :=
  ⟨by decide, fasta_round_trip ['A', 'C', 'G', 'T', 'T'] (by decide)⟩

/-- `pySplit` always produces at least one field. -/
lemma pySplit_ne_nil (sep : Char) (l : List Char) : pySplit sep l ≠ [] := by
  cases l with
  | nil => simp [pySplit]
  | cons c rest =>
    simp only [pySplit]
    split_ifs with h
    · simp
    · rcases hm : pySplit sep rest with _ | ⟨t, ts⟩ <;> simp [hm]

/-- `pySplit` produces one more field than the number of separators. -/
lemma pySplit_length (sep : Char) (l : List Char) :
    (pySplit sep l).length = l.count sep + 1 := by
  induction l with
  | nil => simp [pySplit]
  | cons c rest ih =>
    by_cases h : c = sep
    · subst h
      simp [pySplit, ih, List.count_cons_self]
    · rcases hm : pySplit sep rest with _ | ⟨t, ts⟩
      · exact absurd hm (pySplit_ne_nil sep rest)
      · rw [hm] at ih
        simp only [pySplit, if_neg h, hm, List.length_cons] at ih ⊢
        rw [List.count_cons_of_ne (fun hc => h hc.symm) rest]
        omega

/-- Processing one marker line raises exactly when the stripped line is
non-empty and contains two or more tabs. -/
lemma markerLineStep_error_iff (markers : List (List Char × List Char)) (line : List Char) :
    markerLineStep markers line = .error .valueError ↔
      strip line ≠ [] ∧ 2 ≤ (strip line).count '\t' := by
  by_cases hs : strip line = []
  · simp [markerLineStep, hs]
  · by_cases ht : '\t' ∈ strip line
    · have hcount : 0 < (strip line).count '\t' := List.count_pos_iff.mpr ht
      have hlen := pySplit_length '\t' (strip line)
      rcases hm : pySplit '\t' (strip line) with _ | ⟨a, _ | ⟨b, _ | ⟨c, ts⟩⟩⟩
      · exact absurd hm (pySplit_ne_nil _ _)
      · rw [hm] at hlen
        simp at hlen
        omega
      · rw [hm] at hlen
        simp at hlen
        simp [markerLineStep, hs, ht, hm]
        omega
      · rw [hm] at hlen
        simp at hlen
        simp [markerLineStep, hs, ht, hm]
        omega
    · have hcount : (strip line).count '\t' = 0 := List.count_eq_zero.mpr ht
      simp [markerLineStep, hs, ht]
      omega

/-- Processing one marker line either succeeds or raises `ValueError`. -/
lemma markerLineStep_cases (markers : List (List Char × List Char)) (line : List Char) :
    (∃ m', markerLineStep markers line = .ok m') ∨
      markerLineStep markers line = .error .valueError := by
  rcases h : markerLineStep markers line with e | m'
  · cases e
    exact Or.inr rfl
  · exact Or.inl ⟨m', rfl⟩

/-- Once an exception has been raised, the marker fold keeps it. -/
lemma markersFoldStep_absorb (t : List (List Char)) (e : PyError) :
    t.foldl markersFoldStep (.error e) = .error e := by
  induction t with
  | nil => rfl
  | cons b tl ih =>
    rw [List.foldl_cons]
    exact ih

/-- The marker fold, from any accumulator, raises exactly when some line
strips to a non-empty list with two or more tabs. -/
lemma read_markers_fold_error_iff (lines : List (List Char)) :
    ∀ m, lines.foldl markersFoldStep (.ok m) = .error PyError.valueError ↔
      ∃ l ∈ lines, strip l ≠ [] ∧ 2 ≤ (strip l).count '\t' := by
  induction lines with
  | nil => intro m; simp
  | cons a t ih =>
    intro m
    rw [List.foldl_cons]
    have hstep : markersFoldStep (.ok m) a = markerLineStep m a := rfl
    rw [hstep]
    rcases markerLineStep_cases m a with ⟨m', hm'⟩ | herr
    · rw [hm', ih m']
      constructor
      · rintro ⟨l, hl, hb⟩
        exact ⟨l, List.mem_cons_of_mem a hl, hb⟩
      · rintro ⟨l, hl, hb⟩
        rcases List.mem_cons.mp hl with rfl | hl'
        · exfalso
          have hcontra : markerLineStep m l = .error .valueError :=
            (markerLineStep_error_iff m l).mpr hb
          rw [hm'] at hcontra
          exact Except.noConfusion hcontra
        · exact ⟨l, hl', hb⟩
    · rw [herr, markersFoldStep_absorb]
      constructor
      · intro _
        exact ⟨a, List.mem_cons_self a t, (markerLineStep_error_iff m a).mp herr⟩
      · intro _
        rfl

/-- Claim C10 (amended): `read_markers` silently skips exactly the lines
whose stripped content is empty or contains no tab, and fails (the
two-field unpacking of the split raises `ValueError`) exactly when some
line's stripped content is non-empty and contains two or more tab
characters. -/
theorem read_markers_error_iff (lines : List (List Char)) :
    read_markers lines = .error .valueError ↔
      ∃ l ∈ lines, strip l ≠ [] ∧ 2 ≤ (strip l).count '\t' := by
  rw [read_markers]
  exact read_markers_fold_error_iff lines []

/-- Witness for C10's amended claim: a file whose single line strips to
`"a\tb\tc"` (two tabs) makes `read_markers` fail. -/
theorem read_markers_error_iff_witness :
    read_markers [['a', '\t', 'b', '\t', 'c']] = .error .valueError :=
  (read_markers_error_iff [['a', '\t', 'b', '\t', 'c']]).mpr
    ⟨['a', '\t', 'b', '\t', 'c'], by decide, by decide, by decide⟩

/-- Counterexample to claim C10 as stated: the line `"a\tB\t"` is
non-empty and contains two tab characters, yet `read_markers` does not
fail on it — stripping removes the trailing tab and the line is parsed
into the two fields `a` and `B`. -/
theorem read_markers_two_tabs_parses :
    read_markers [['a', '\t', 'B', '\t']] = .ok [(['a'], ['B'])] ∧
    (['a', '\t', 'B', '\t'] : List Char) ≠ [] ∧
    2 ≤ (['a', '\t', 'B', '\t'] : List Char).count '\t' :=
  ⟨rfl, by decide, by decide⟩

/-- Claim C8: well-formed design lines are classified by the
case-insensitive substring test `"site" in category` — `XbaI` below goes
to the allowed-sites set, `ampR` to the required-markers set — and a
non-empty line that does not split into exactly two comma-separated
tokens (here `"abc"`) makes `read_design` fail; the failure the code
produces is the `ValueError` raised by tuple unpacking, which does not
identify the offending line. -/
theorem read_design_eval :
    read_design [("restriction site, XbaI").toList, ("gene, ampR").toList,
        ("abc").toList] = .error .valueError ∧
    read_design [("restriction site, XbaI").toList, ("gene, ampR").toList]
      = .ok ({("XbaI").toList}, {("ampR").toList}) :=
  ⟨rfl, rfl⟩
